import Mathlib

/-!
Verification of the vote ledger and aggregation engine of the brand-swipe
voting app (`app.py`).  The persisted CSV store becomes a list of rows,
timestamps become naturals, pandas data frames become lists of records,
percentages become exact rationals, the float `weighted_score` column
becomes its real-number value, and the pandas multi-column sort (which is
the stable `np.lexsort`) becomes `List.mergeSort`.
-/

namespace BrandSwipe

/-- Python `str.strip()` (also pandas `.str.strip()`): remove leading and
trailing whitespace. -/
def strip (s : String) : String :=
  ⟨((s.data.dropWhile Char.isWhitespace).reverse.dropWhile Char.isWhitespace).reverse⟩

/-- One persisted vote row: the columns
`session_id, user_name, image_id, vote, timestamp` of `votes.csv`.
Timestamps are abstracted to naturals (`datetime.now().isoformat()` is
monotone wall-clock time). -/
structure VoteRow where
  session_id : String
  user_name : String
  image_id : String
  vote : String
  timestamp : Nat
deriving DecidableEq, Repr

/-- The row mask built by `save_vote`:
`(votes_df["session_id"] == session_id) & (votes_df["image_id"] == image_id)`. -/
def keyb (s i : String) (r : VoteRow) : Bool :=
  r.session_id == s && r.image_id == i

/-- `save_vote(session_id, user_name, image_id, vote)` acting on the loaded
row list: if the mask hits any row, `votes_df.loc[mask, "vote"] = vote` and
`votes_df.loc[mask, "timestamp"] = timestamp` update every masked row in
place (leaving `user_name` untouched); otherwise one new row is
concatenated at the end.  The fresh `datetime.now()` timestamp is the
explicit argument `t`. -/
def save_vote (s u i v : String) (t : Nat) (rows : List VoteRow) : List VoteRow :=
  if rows.any (keyb s i) then
    rows.map (fun r => if keyb s i r then { r with vote := v, timestamp := t } else r)
  else
    rows ++ [⟨s, u, i, v, t⟩]

/-- The one-row-per-`(session_id, image_id)` invariant of the vote store. -/
def pairInv (rows : List VoteRow) : Prop :=
  rows.Pairwise fun a b => ¬(a.session_id = b.session_id ∧ a.image_id = b.image_id)

/-- The summary dict built by `get_user_vote_summary`. -/
structure VoterSummary where
  total : Nat
  yes : Nat
  no : Nat
  maybe : Nat
deriving DecidableEq, Repr

/-- `get_user_vote_summary(session_id)`: filter the loaded rows to the
session, then count all rows and the rows voting `yes` / `no` / `maybe`. -/
def get_user_vote_summary (s : String) (rows : List VoteRow) : VoterSummary :=
  let user_votes := rows.filter fun r => r.session_id == s
  { total := user_votes.length
    yes := (user_votes.filter fun r => r.vote == "yes").length
    no := (user_votes.filter fun r => r.vote == "no").length
    maybe := (user_votes.filter fun r => r.vote == "maybe").length }

/-- One row of the frame produced by `get_aggregate_stats`'s
`groupby("image_id").agg(...)`: per-image vote counts.  The derived
columns `yes_percentage` and `weighted_score` are deterministic functions
of these counts and are embedded as functions below. -/
structure ItemStats where
  image_id : String
  total_votes : Nat
  yes_votes : Nat
  no_votes : Nat
  maybe_votes : Nat
deriving DecidableEq, Repr

/-- Rounding to one decimal place, `.round(1)`: round the tenfold value
to the nearest integer and divide back.  Exact rational arithmetic stands
in for the float column. -/
def roundTo1 (q : ℚ) : ℚ :=
  (round (10 * q) : ℚ) / 10

/-- The `yes_percentage` column:
`(stats["yes_votes"] / stats["total_votes"] * 100).round(1)`. -/
def yes_percentage (g : ItemStats) : ℚ :=
  roundTo1 ((g.yes_votes : ℚ) / g.total_votes * 100)

/-- `yes_percentage` in tenths of a percent, computed in the naturals:
rounding `1000 * yes / total` to the nearest integer is the natural
division `(2000 * yes + total) / (2 * total)`.
`yes_percentage_eq_permille` proves the agreement. -/
def yesPermille (g : ItemStats) : Nat :=
  (2000 * g.yes_votes + g.total_votes) / (2 * g.total_votes)

/-- The `weighted_score` column:
`stats["yes_percentage"] * np.log1p(stats["total_votes"])`, with the
natural logarithm read in the real numbers. -/
noncomputable def weighted_score (g : ItemStats) : ℝ :=
  (yes_percentage g : ℝ) * Real.log (1 + g.total_votes)

/-- Exact integer encoding of the ranking key: since
`weighted_score = log ((1 + total_votes) ^ yesPermille) / 10`, comparing
weighted scores is comparing these natural-number powers. -/
def statKey (g : ItemStats) : Nat × Nat :=
  ((1 + g.total_votes) ^ yesPermille g, yesPermille g)

/-- Decidable comparator realising
`sort_values(["weighted_score", "yes_percentage"], ascending=[False, False])`:
`a` may come before `b` iff `a`'s score is strictly larger, or the scores
are equal and `a`'s percentage is at least `b`'s. -/
def statLE (a b : ItemStats) : Bool :=
  decide ((statKey b).1 < (statKey a).1 ∨
    ((statKey a).1 = (statKey b).1 ∧ (statKey b).2 ≤ (statKey a).2))

/-- The descending lexicographic order on the real-valued columns
`(weighted_score, yes_percentage)` that the report is sorted by. -/
def wsLexGe (a b : ItemStats) : Prop :=
  weighted_score b < weighted_score a ∨
    (weighted_score a = weighted_score b ∧ yes_percentage b ≤ yes_percentage a)

/-- Lexicographic comparison of character lists by code point, the order
pandas sorts string group keys in. -/
def charsLe : List Char → List Char → Bool
  | [], _ => true
  | _ :: _, [] => false
  | a :: as, b :: bs =>
    if a.toNat < b.toNat then true
    else if b.toNat < a.toNat then false
    else charsLe as bs

/-- Lexicographic string comparison, structurally computable. -/
def strLe (a b : String) : Bool := charsLe a.data b.data

/-- The group keys of `votes_df.groupby("image_id")`: the distinct image
ids, in ascending order (pandas `groupby` sorts its keys by default). -/
def distinctIds (rows : List VoteRow) : List String :=
  ((rows.map fun r => r.image_id).dedup).mergeSort strLe

/-- The aggregate row of one `groupby` group: count the group's rows and
its `yes` / `no` / `maybe` rows. -/
def mkStats (rows : List VoteRow) (k : String) : ItemStats :=
  let g := rows.filter fun r => r.image_id == k
  { image_id := k
    total_votes := g.length
    yes_votes := (g.filter fun r => r.vote == "yes").length
    no_votes := (g.filter fun r => r.vote == "no").length
    maybe_votes := (g.filter fun r => r.vote == "maybe").length }

/-- The grouped frame, one aggregate row per distinct image id, in group
formation (key) order. -/
def groupStats (rows : List VoteRow) : List ItemStats :=
  (distinctIds rows).map (mkStats rows)

/-- `get_aggregate_stats()`: `None` when the store holds no rows, else the
grouped counts sorted by the stable two-column descending sort. -/
def get_aggregate_stats (rows : List VoteRow) : Option (List ItemStats) :=
  if rows.length = 0 then none
  else some ((groupStats rows).mergeSort statLE)

/-- One catalog entry after `load_images` coercion: columns `id`, `url`,
`label` of `images.csv`. -/
structure ImageRow where
  id : String
  url : String
  label : String
deriving DecidableEq, Repr

/-- The `show_end_screen` merge
`agg_stats.merge(images_df[["id","url","label"]], left_on="image_id", right_on="id", how="inner")`:
each aggregate row is paired with every catalog row of the same id, in
left-frame order; aggregate rows without a catalog partner disappear. -/
def mergeWithCatalog (stats : List ItemStats) (catalog : List ImageRow) :
    List (ItemStats × ImageRow) :=
  stats.flatMap fun g =>
    (catalog.filter fun it => it.id == g.image_id).map fun it => (g, it)

/-- One raw parsed CSV record; `none` stands for a missing (NaN) cell. -/
structure RawImageRow where
  id : Option String
  url : Option String
  label : Option String

/-- The parsed `images.csv`: its column list and its records. -/
structure RawTable where
  cols : List String
  rows : List RawImageRow

/-- The state of `images.csv` as `load_images` finds it: missing, present
but unparseable (the `except Exception` branch around `pd.read_csv`,
carrying the exception text), or a parsed table. -/
inductive ImagesFile where
  | absent : ImagesFile
  | corrupt : String → ImagesFile
  | table : RawTable → ImagesFile

/-- `load_images()`: error when the file is missing, when reading or
parsing it raises (the `except` branch turns the exception into an error
message), when the `id` or `url` column is missing, or when there are
zero rows; otherwise each record is coerced (`fillna("")`,
`astype(str)`, `str.strip()`) into an `ImageRow`.  The pair return
`(df, error)` becomes `Except`. -/
def load_images : ImagesFile → Except String (List ImageRow)
  | .absent => .error "images.csv not found. Please create it with columns: id, url, label"
  | .corrupt e => .error ("Error loading images.csv: " ++ e)
  | .table t =>
    if "id" ∈ t.cols ∧ "url" ∈ t.cols then
      if t.rows.length = 0 then
        .error "images.csv is empty. Please add some images to vote on."
      else
        .ok (t.rows.map fun r =>
          { id := strip (r.id.getD "")
            url := strip (r.url.getD "")
            label := r.label.getD "" })
    else
      .error "images.csv must have id and url columns"

/-- The three error causes the claim names for catalog loading: the
resource is missing, a parsed table lacks the `id` or `url` column, or a
parsed table has zero rows. -/
def specCatalogErrorCause (inp : ImagesFile) : Prop :=
  inp = ImagesFile.absent ∨
    ∃ t, inp = ImagesFile.table t ∧
      ("id" ∉ t.cols ∨ "url" ∉ t.cols ∨ t.rows = [])

/-- The state of the backing `votes.csv` file: missing, present but
unparseable, or a parsed list of rows. -/
inductive VoteFile where
  | absent : VoteFile
  | corrupt : VoteFile
  | stored : List VoteRow → VoteFile
deriving DecidableEq

/-- `load_votes()`: a missing file and a `pd.read_csv` failure both yield
the empty frame; otherwise every stored row is returned with its
`image_id` coerced by `astype(str).str.strip()`. -/
def load_votes : VoteFile → List VoteRow
  | .absent => []
  | .corrupt => []
  | .stored rows => rows.map fun r => { r with image_id := strip r.image_id }

/-- The admin `Clear All Votes` action: `os.remove(VOTES_CSV)` when the
file exists, an informational no-op otherwise; either way the file is
absent afterwards and no error escapes. -/
def wipe_votes : VoteFile → VoteFile := fun _ => .absent

lemma keyb_iff (s i : String) (r : VoteRow) :
    keyb s i r = true ↔ (r.session_id = s ∧ r.image_id = i) := by
  simp [keyb]

lemma keyb_session_upd (s i v : String) (t : Nat) (r : VoteRow) :
    ((if keyb s i r then { r with vote := v, timestamp := t } else r) : VoteRow).session_id
      = r.session_id := by
  split <;> rfl

lemma keyb_image_upd (s i v : String) (t : Nat) (r : VoteRow) :
    ((if keyb s i r then { r with vote := v, timestamp := t } else r) : VoteRow).image_id
      = r.image_id := by
  split <;> rfl

/-- The arguments of one `save_vote` call, for speaking about call
sequences. -/
structure VoteCall where
  session_id : String
  user_name : String
  image_id : String
  vote : String
  timestamp : Nat

/-- A sequence of `save_vote` calls applied in order to a store. -/
def apply_votes (calls : List VoteCall) (rows : List VoteRow) : List VoteRow :=
  calls.foldl
    (fun acc c => save_vote c.session_id c.user_name c.image_id c.vote c.timestamp acc)
    rows

/-- One upsert preserves the one-row-per-pair invariant. -/
lemma save_vote_pairInv (s u i v : String) (t : Nat) (rows : List VoteRow)
    (hinv : pairInv rows) : pairInv (save_vote s u i v t rows) := by
  by_cases hany : rows.any (keyb s i)
  · rw [save_vote, if_pos hany, pairInv, List.pairwise_map]
    refine hinv.imp ?_
    intro a b hab hc
    exact hab ⟨by simpa [keyb_session_upd] using hc.1, by simpa [keyb_image_upd] using hc.2⟩
  · rw [save_vote, if_neg hany, pairInv, List.pairwise_append]
    refine ⟨hinv, List.pairwise_singleton _ _, ?_⟩
    intro a ha b hb
    simp only [List.mem_singleton] at hb
    subst hb
    intro hc
    exact hany (List.any_eq_true.mpr ⟨a, ha, (keyb_iff s i a).mpr ⟨hc.1, hc.2⟩⟩)

/-- C1: every sequence of upserts starting from the empty store satisfies
the one-row-per-`(session, item)` invariant; one upsert on a pair that
already has a row keeps the row count, rewrites that row's value and
timestamp (with the old timestamp at most the fresh one), and an upsert
on a new pair appends exactly the one new row. -/
theorem save_vote_upsert_invariant (s u i v : String) (t : Nat) (rows : List VoteRow)
    (hinv : pairInv rows) (hclock : ∀ r ∈ rows, r.timestamp ≤ t) :
    (∀ calls : List VoteCall, pairInv (apply_votes calls [])) ∧
    pairInv (save_vote s u i v t rows) ∧
    ((∃ r ∈ rows, keyb s i r) →
      (save_vote s u i v t rows).length = rows.length ∧
      ∀ r ∈ rows, keyb s i r →
        ({ r with vote := v, timestamp := t } : VoteRow) ∈ save_vote s u i v t rows ∧
        r.timestamp ≤ t) ∧
    ((∀ r ∈ rows, ¬ keyb s i r) →
      save_vote s u i v t rows = rows ++ [⟨s, u, i, v, t⟩]) := by
  refine ⟨?_, ?_⟩
  · intro calls
    have hgen : ∀ (cs : List VoteCall) (start : List VoteRow),
        pairInv start → pairInv (apply_votes cs start) := by
      intro cs
      induction cs with
      | nil => exact fun start h => h
      | cons c cs ih =>
        intro start h
        exact ih _ (save_vote_pairInv _ _ _ _ _ _ h)
    exact hgen calls [] (List.Pairwise.nil)
  refine ⟨save_vote_pairInv s u i v t rows hinv, ?_⟩
  by_cases hany : rows.any (keyb s i)
  · rw [save_vote, if_pos hany]
    refine ⟨fun _ => ⟨List.length_map _ _, fun r hr hk => ⟨?_, hclock r hr⟩⟩, fun hno => ?_⟩
    · have : ({ r with vote := v, timestamp := t } : VoteRow)
          = if keyb s i r then { r with vote := v, timestamp := t } else r := by
        rw [if_pos hk]
      rw [this]
      exact List.mem_map_of_mem _ hr
    · rcases List.any_eq_true.mp hany with ⟨r, hr, hk⟩
      exact absurd hk (hno r hr)
  · rw [save_vote, if_neg hany]
    have hno : ∀ r ∈ rows, ¬ keyb s i r := by
      intro r hr hk
      exact hany (List.any_eq_true.mpr ⟨r, hr, hk⟩)
    refine ⟨fun hex => ?_, fun _ => rfl⟩
    rcases hex with ⟨r, hr, hk⟩
    exact absurd hk (hno r hr)

/-- Concrete run of `save_vote_upsert_invariant`: overwriting the existing
vote of session `s1` on image `img1`. -/
theorem save_vote_upsert_invariant_witness :
    pairInv (apply_votes
      [⟨"s1", "alice", "img1", "yes", 1⟩, ⟨"s1", "alice", "img1", "no", 5⟩] []) ∧
    pairInv (save_vote "s1" "alice" "img1" "no" 5 [⟨"s1", "alice", "img1", "yes", 1⟩]) ∧
    (save_vote "s1" "alice" "img1" "no" 5 [⟨"s1", "alice", "img1", "yes", 1⟩]).length = 1 ∧
    (⟨"s1", "alice", "img1", "no", 5⟩ : VoteRow)
      ∈ save_vote "s1" "alice" "img1" "no" 5 [⟨"s1", "alice", "img1", "yes", 1⟩] := by
  have h := save_vote_upsert_invariant "s1" "alice" "img1" "no" 5
    [⟨"s1", "alice", "img1", "yes", 1⟩]
    (by simp [pairInv]) (by intro r hr; simp at hr; simp [hr])
  have h2 := h.2.2.1 ⟨⟨"s1", "alice", "img1", "yes", 1⟩, by simp, by decide⟩
  exact ⟨h.1 _, h.2.1, h2.1,
    (h2.2 ⟨"s1", "alice", "img1", "yes", 1⟩ (by simp) (by decide)).1⟩

lemma count_three (l : List VoteRow)
    (h : ∀ r ∈ l, r.vote = "yes" ∨ r.vote = "no" ∨ r.vote = "maybe") :
    l.length = (l.filter fun r => r.vote == "yes").length
      + (l.filter fun r => r.vote == "no").length
      + (l.filter fun r => r.vote == "maybe").length := by
  induction l with
  | nil => simp
  | cons a l ih =>
    have ha := h a (List.mem_cons_self a l)
    have ihe := ih fun r hr => h r (List.mem_cons_of_mem a hr)
    rcases ha with h1 | h1 | h1 <;> simp [List.filter_cons, h1, ihe] <;> omega

/-- C2: the per-voter summary is a pure count of the voter's rows: the
`yes` / `no` / `maybe` fields count exactly the voter's rows with those
values, `total` is their sum whenever every row carries one of the three
values, and a voter with no rows gets the all-zero summary. -/
theorem summarize_tally (s : String) (rows : List VoteRow)
    (h : ∀ r ∈ rows, r.session_id = s →
      r.vote = "yes" ∨ r.vote = "no" ∨ r.vote = "maybe") :
    (get_user_vote_summary s rows).total
        = (get_user_vote_summary s rows).yes + (get_user_vote_summary s rows).no
          + (get_user_vote_summary s rows).maybe ∧
    (get_user_vote_summary s rows).yes
        = (rows.filter fun r => r.session_id == s && r.vote == "yes").length ∧
    (get_user_vote_summary s rows).no
        = (rows.filter fun r => r.session_id == s && r.vote == "no").length ∧
    (get_user_vote_summary s rows).maybe
        = (rows.filter fun r => r.session_id == s && r.vote == "maybe").length ∧
    ((∀ r ∈ rows, r.session_id ≠ s) →
      get_user_vote_summary s rows = ⟨0, 0, 0, 0⟩) := by
  refine ⟨?_, ?_, ?_, ?_, ?_⟩
  · exact count_three _ fun r hr => h r (List.mem_filter.mp hr).1
      (by simpa using (List.mem_filter.mp hr).2)
  · simp [get_user_vote_summary, List.filter_filter, Bool.and_comm]
  · simp [get_user_vote_summary, List.filter_filter, Bool.and_comm]
  · simp [get_user_vote_summary, List.filter_filter, Bool.and_comm]
  · intro hno
    have : rows.filter (fun r => r.session_id == s) = [] := by
      rw [List.filter_eq_nil_iff]
      intro r hr
      simpa using hno r hr
    simp [get_user_vote_summary, this]

/-- Concrete run of `summarize_tally` on a two-row store. -/
theorem summarize_tally_witness :
    (get_user_vote_summary "s1" [⟨"s1", "a", "i1", "yes", 1⟩, ⟨"s2", "b", "i1", "no", 2⟩]).total
        = (get_user_vote_summary "s1" [⟨"s1", "a", "i1", "yes", 1⟩, ⟨"s2", "b", "i1", "no", 2⟩]).yes
          + (get_user_vote_summary "s1" [⟨"s1", "a", "i1", "yes", 1⟩, ⟨"s2", "b", "i1", "no", 2⟩]).no
          + (get_user_vote_summary "s1" [⟨"s1", "a", "i1", "yes", 1⟩, ⟨"s2", "b", "i1", "no", 2⟩]).maybe ∧
    get_user_vote_summary "s3" [⟨"s1", "a", "i1", "yes", 1⟩, ⟨"s2", "b", "i1", "no", 2⟩]
      = ⟨0, 0, 0, 0⟩ := by
  constructor
  · exact (summarize_tally "s1" [⟨"s1", "a", "i1", "yes", 1⟩, ⟨"s2", "b", "i1", "no", 2⟩]
      (by intro r hr; simp at hr; rcases hr with h | h <;> simp [h])).1
  · exact (summarize_tally "s3" [⟨"s1", "a", "i1", "yes", 1⟩, ⟨"s2", "b", "i1", "no", 2⟩]
      (by intro r hr; simp at hr; rcases hr with h | h <;> simp [h])).2.2.2.2
      (by intro r hr; simp at hr; rcases hr with h | h <;> simp [h])

/-- C9: an upsert that hits an existing `(session, item)` row is a frame
change: every position keeps its `user_name` (the caller-supplied name is
never written on update), non-matching rows are untouched, and a matching
row changes only its `vote` and `timestamp`. -/
theorem save_vote_update_frame (s u i v : String) (t : Nat) (rows : List VoteRow)
    (hex : ∃ r ∈ rows, keyb s i r) :
    (save_vote s u i v t rows).length = rows.length ∧
    ∀ (j : Nat) (hj : j < rows.length) (hj2 : j < (save_vote s u i v t rows).length),
      ((save_vote s u i v t rows).get ⟨j, hj2⟩).user_name = (rows.get ⟨j, hj⟩).user_name ∧
      (¬ keyb s i (rows.get ⟨j, hj⟩) →
        (save_vote s u i v t rows).get ⟨j, hj2⟩ = rows.get ⟨j, hj⟩) ∧
      (keyb s i (rows.get ⟨j, hj⟩) →
        (save_vote s u i v t rows).get ⟨j, hj2⟩
          = { rows.get ⟨j, hj⟩ with vote := v, timestamp := t }) := by
  have hany : rows.any (keyb s i) = true := by
    rcases hex with ⟨r, hr, hk⟩
    exact List.any_eq_true.mpr ⟨r, hr, hk⟩
  rw [save_vote, if_pos hany]
  refine ⟨List.length_map _ _, fun j hj hj2 => ?_⟩
  rw [List.get_eq_getElem, List.get_eq_getElem, List.getElem_map]
  by_cases hk : keyb s i rows[j]
  · rw [if_pos hk]
    exact ⟨rfl, fun hc => absurd hk hc, fun _ => rfl⟩
  · rw [if_neg hk]
    exact ⟨rfl, fun _ => rfl, fun hc => absurd hc hk⟩

/-- Concrete run of `save_vote_update_frame`: the update writes the new
value but keeps the originally stored `user_name` even though the caller
supplies a different one, and leaves the other row alone. -/
theorem save_vote_update_frame_witness :
    (save_vote "s1" "carol" "img1" "no" 9
        [⟨"s1", "alice", "img1", "yes", 1⟩, ⟨"s2", "bob", "img1", "yes", 2⟩]).length = 2 ∧
    ((save_vote "s1" "carol" "img1" "no" 9
        [⟨"s1", "alice", "img1", "yes", 1⟩, ⟨"s2", "bob", "img1", "yes", 2⟩]).get
          ⟨0, by decide⟩).user_name = "alice" ∧
    (save_vote "s1" "carol" "img1" "no" 9
        [⟨"s1", "alice", "img1", "yes", 1⟩, ⟨"s2", "bob", "img1", "yes", 2⟩]).get
          ⟨1, by decide⟩ = ⟨"s2", "bob", "img1", "yes", 2⟩ := by
  have h := save_vote_update_frame "s1" "carol" "img1" "no" 9
    [⟨"s1", "alice", "img1", "yes", 1⟩, ⟨"s2", "bob", "img1", "yes", 2⟩]
    ⟨⟨"s1", "alice", "img1", "yes", 1⟩, by simp, by decide⟩
  refine ⟨h.1, ?_, ?_⟩
  · exact (h.2 0 (by decide) (by decide)).1
  · exact (h.2 1 (by decide) (by decide)).2.1 (by decide)

/-- C6: wiping the vote store is idempotent and always safe: it succeeds
on any store state (including an absent backing file), a second wipe is a
no-op, and a wiped store loads as empty. -/
theorem wipe_votes_idempotent_safe :
    (∀ f : VoteFile, wipe_votes (wipe_votes f) = wipe_votes f) ∧
    (∀ f : VoteFile, load_votes (wipe_votes f) = []) ∧
    wipe_votes VoteFile.absent = VoteFile.absent := by
  exact ⟨fun _ => rfl, fun _ => rfl, rfl⟩

/-- C7: loading votes is total: a missing file and an unparseable file
both yield the empty row list, and a parseable file yields all of its
rows (with the `image_id` column coerced to a stripped string). -/
theorem load_votes_recovery :
    load_votes VoteFile.absent = [] ∧
    load_votes VoteFile.corrupt = [] ∧
    ∀ rows : List VoteRow,
      (load_votes (VoteFile.stored rows)).length = rows.length ∧
      ∀ r ∈ rows, ({ r with image_id := strip r.image_id } : VoteRow)
        ∈ load_votes (VoteFile.stored rows) := by
  refine ⟨rfl, rfl, fun rows => ⟨List.length_map _ _, fun r hr => ?_⟩⟩
  exact List.mem_map_of_mem _ hr

/-- Concrete run of `load_votes_recovery` on a one-row stored file. -/
theorem load_votes_recovery_witness :
    load_votes VoteFile.absent = [] ∧
    (load_votes (VoteFile.stored [⟨"s1", "a", " i1 ", "yes", 1⟩])).length = 1 ∧
    (⟨"s1", "a", "i1", "yes", 1⟩ : VoteRow)
      ∈ load_votes (VoteFile.stored [⟨"s1", "a", " i1 ", "yes", 1⟩]) := by
  have h := load_votes_recovery
  refine ⟨h.1, (h.2.2 [⟨"s1", "a", " i1 ", "yes", 1⟩]).1, ?_⟩
  have hm := (h.2.2 [⟨"s1", "a", " i1 ", "yes", 1⟩]).2 ⟨"s1", "a", " i1 ", "yes", 1⟩ (by simp)
  have e : strip " i1 " = "i1" := by decide
  rw [e] at hm
  exact hm

/-- C5: the merged report is an inner join: every output row pairs an
aggregate with a catalog entry of the same id (so only catalog ids ever
appear), and an aggregate whose `image_id` is absent from the catalog is
silently dropped; the join is a total function, so such rows never raise
an error. -/
theorem report_inner_join (stats : List ItemStats) (catalog : List ImageRow) :
    (∀ p ∈ mergeWithCatalog stats catalog,
      p.1.image_id = p.2.id ∧ (p.2.id ∈ catalog.map fun it => it.id)) ∧
    ∀ g : ItemStats, (g.image_id ∉ catalog.map fun it => it.id) →
      ∀ it : ImageRow, (g, it) ∉ mergeWithCatalog stats catalog := by
  constructor
  · intro p hp
    rw [mergeWithCatalog, List.mem_flatMap] at hp
    rcases hp with ⟨g, _, hp⟩
    rw [List.mem_map] at hp
    rcases hp with ⟨it, hit, rfl⟩
    rw [List.mem_filter] at hit
    refine ⟨(beq_iff_eq.mp hit.2).symm, ?_⟩
    exact List.mem_map.mpr ⟨it, hit.1, rfl⟩
  · intro g hg it hmem
    rw [mergeWithCatalog, List.mem_flatMap] at hmem
    rcases hmem with ⟨g2, _, hmem⟩
    rw [List.mem_map] at hmem
    rcases hmem with ⟨it2, hit2, heq⟩
    rw [List.mem_filter] at hit2
    have hg2 : g2 = g := congrArg Prod.fst heq
    have hit : it2 = it := congrArg Prod.snd heq
    apply hg
    rw [List.mem_map]
    refine ⟨it2, hit2.1, ?_⟩
    have hid : it2.id = g2.image_id := beq_iff_eq.mp hit2.2
    rw [hid, hg2]

/-- Concrete run of `report_inner_join`: the aggregate for `img1` joins
its catalog row; the aggregate for the removed `gone` id yields no row. -/
theorem report_inner_join_witness :
    ((⟨"img1", 2, 1, 1, 0⟩ : ItemStats), (⟨"img1", "u1", "l1"⟩ : ImageRow)).1.image_id
      = ((⟨"img1", 2, 1, 1, 0⟩ : ItemStats), (⟨"img1", "u1", "l1"⟩ : ImageRow)).2.id ∧
    ((⟨"gone", 1, 1, 0, 0⟩ : ItemStats), (⟨"img1", "u1", "l1"⟩ : ImageRow))
      ∉ mergeWithCatalog [⟨"img1", 2, 1, 1, 0⟩, ⟨"gone", 1, 1, 0, 0⟩] [⟨"img1", "u1", "l1"⟩] := by
  have h := report_inner_join [⟨"img1", 2, 1, 1, 0⟩, ⟨"gone", 1, 1, 0, 0⟩] [⟨"img1", "u1", "l1"⟩]
  refine ⟨(h.1 (⟨"img1", 2, 1, 1, 0⟩, ⟨"img1", "u1", "l1"⟩) (by decide)).1, ?_⟩
  exact h.2 ⟨"gone", 1, 1, 0, 0⟩ (by decide) ⟨"img1", "u1", "l1"⟩

/-- C8 counterexample: a present-but-unparseable `images.csv` (the
`except` branch of `load_images`) fails with a descriptive error even
though none of the three causes named by the claim — missing file,
missing `id`/`url` column, zero rows — applies, so the claim's
`exactly when` tripartition is false of the program. -/
theorem load_images_corrupt_counterexample :
    load_images (ImagesFile.corrupt "ParserError")
      = Except.error "Error loading images.csv: ParserError" ∧
    ¬ specCatalogErrorCause (ImagesFile.corrupt "ParserError") := by
  refine ⟨rfl, ?_⟩
  rintro (h | ⟨t, h, _⟩) <;> exact absurd h (by simp)

/-- C8 (amended): catalog loading errors exactly when the file is
missing, the file is present but unparseable, a required column (`id` or
`url`) is missing, or the table has zero rows; in every other case it
succeeds with one catalog entry per raw record (and in the error cases
no catalog is produced, by the `Except` shape). -/
theorem load_images_error_cases (inp : ImagesFile) :
    ((∃ e, load_images inp = Except.error e) ↔
      (inp = ImagesFile.absent ∨ (∃ m, inp = ImagesFile.corrupt m) ∨
        ∃ t, inp = ImagesFile.table t ∧
          ("id" ∉ t.cols ∨ "url" ∉ t.cols ∨ t.rows = []))) ∧
    ∀ t : RawTable, inp = ImagesFile.table t →
      "id" ∈ t.cols → "url" ∈ t.cols → t.rows ≠ [] →
      ∃ cat, load_images inp = Except.ok cat ∧ cat.length = t.rows.length := by
  constructor
  · cases inp with
    | absent => exact ⟨fun _ => Or.inl rfl, fun _ => ⟨_, rfl⟩⟩
    | corrupt m => exact ⟨fun _ => Or.inr (Or.inl ⟨m, rfl⟩), fun _ => ⟨_, rfl⟩⟩
    | table t =>
      simp only [load_images]
      by_cases hc : "id" ∈ t.cols ∧ "url" ∈ t.cols
      · rw [if_pos hc]
        by_cases hz : t.rows.length = 0
        · rw [if_pos hz]
          simp only [List.length_eq_zero] at hz
          constructor
          · intro _
            exact Or.inr (Or.inr ⟨t, rfl, Or.inr (Or.inr hz)⟩)
          · intro _
            exact ⟨_, rfl⟩
        · rw [if_neg hz]
          constructor
          · rintro ⟨e, he⟩
            exact absurd he (by simp)
          · rintro (h | ⟨m, h⟩ | ⟨t2, ht2, h⟩)
            · exact absurd h (by simp)
            · exact absurd h (by simp)
            · cases ht2
              rcases h with h | h | h
              · exact absurd hc.1 h
              · exact absurd hc.2 h
              · exact absurd (by rw [h]; rfl) hz
      · rw [if_neg hc]
        constructor
        · intro _
          rcases Decidable.not_and_iff_or_not.mp hc with h | h
          · exact Or.inr (Or.inr ⟨t, rfl, Or.inl h⟩)
          · exact Or.inr (Or.inr ⟨t, rfl, Or.inr (Or.inl h)⟩)
        · intro _
          exact ⟨_, rfl⟩
  · intro t ht h1 h2 h3
    subst ht
    rw [load_images, if_pos ⟨h1, h2⟩, if_neg (fun h => h3 (List.length_eq_zero.mp h))]
    exact ⟨_, rfl, List.length_map _ _⟩

/-- Concrete runs of `load_images_error_cases`: a missing file, an
unparseable file and an empty table all error; a well-formed one-row
table loads one entry. -/
theorem load_images_error_cases_witness :
    (∃ e, load_images ImagesFile.absent = Except.error e) ∧
    (∃ e, load_images (ImagesFile.corrupt "ParserError") = Except.error e) ∧
    (∃ e, load_images (ImagesFile.table ⟨["id", "url"], []⟩) = Except.error e) ∧
    ∃ cat, load_images (ImagesFile.table ⟨["id", "url"], [⟨some "a", some "u", none⟩]⟩)
        = Except.ok cat ∧ cat.length = 1 := by
  refine ⟨(load_images_error_cases ImagesFile.absent).1.mpr (Or.inl rfl), ?_, ?_, ?_⟩
  · exact (load_images_error_cases (ImagesFile.corrupt "ParserError")).1.mpr
      (Or.inr (Or.inl ⟨_, rfl⟩))
  · exact (load_images_error_cases (ImagesFile.table ⟨["id", "url"], []⟩)).1.mpr
      (Or.inr (Or.inr ⟨_, rfl, Or.inr (Or.inr rfl)⟩))
  · exact (load_images_error_cases
      (ImagesFile.table ⟨["id", "url"], [⟨some "a", some "u", none⟩]⟩)).2
      _ rfl (by simp) (by simp) (by simp)

lemma statLE_trans (a b c : ItemStats) : statLE a b → statLE b c → statLE a c := by
  simp only [statLE, decide_eq_true_eq]
  omega

lemma statLE_total (a b : ItemStats) : statLE a b || statLE b a := by
  simp only [statLE, Bool.or_eq_true, decide_eq_true_eq]
  omega

lemma statKey_fst_pos (g : ItemStats) : 0 < (statKey g).1 :=
  Nat.pos_pow_of_pos _ (by omega)

/-- The natural-number permille really is the rounded percentage scaled
by ten: for any counts, `yes_percentage = yesPermille / 10`. -/
lemma yes_percentage_eq_permille (g : ItemStats) :
    yes_percentage g = (yesPermille g : ℚ) / 10 := by
  rcases Nat.eq_zero_or_pos g.total_votes with h0 | hpos
  · simp [yes_percentage, roundTo1, yesPermille, h0]
  · rw [yes_percentage, roundTo1, yesPermille]
    have ht : (g.total_votes : ℚ) ≠ 0 := Nat.cast_ne_zero.mpr (by omega)
    have harg : 10 * ((g.yes_votes : ℚ) / g.total_votes * 100) + 1 / 2
        = ((2000 * g.yes_votes + g.total_votes : ℕ) : ℚ)
          / ((2 * g.total_votes : ℕ) : ℚ) := by
      push_cast
      field_simp
      ring
    have hr : round (10 * ((g.yes_votes : ℚ) / g.total_votes * 100))
        = ((2000 * g.yes_votes + g.total_votes) / (2 * g.total_votes) : ℕ) := by
      rw [round_eq, harg, Rat.floor_natCast_div_natCast]
      exact (Int.ofNat_tdiv _ _).symm
    rw [hr, Int.cast_natCast]

lemma weighted_score_eq_log (g : ItemStats) :
    weighted_score g = Real.log ((statKey g).1) / 10 := by
  rw [weighted_score, yes_percentage_eq_permille, statKey]
  push_cast
  rw [Real.log_pow]
  ring

lemma weighted_score_lt_iff (a b : ItemStats) :
    weighted_score b < weighted_score a ↔ (statKey b).1 < (statKey a).1 := by
  rw [weighted_score_eq_log, weighted_score_eq_log,
    div_lt_div_iff_of_pos_right (by norm_num : (0:ℝ) < 10),
    Real.log_lt_log_iff (by exact_mod_cast statKey_fst_pos b)
      (by exact_mod_cast statKey_fst_pos a),
    Nat.cast_lt]

lemma weighted_score_eq_iff (a b : ItemStats) :
    weighted_score a = weighted_score b ↔ (statKey a).1 = (statKey b).1 := by
  constructor
  · intro h
    have h1 : ¬ (statKey b).1 < (statKey a).1 := by
      rw [← weighted_score_lt_iff a b, h]
      exact lt_irrefl _
    have h2 : ¬ (statKey a).1 < (statKey b).1 := by
      rw [← weighted_score_lt_iff b a, h]
      exact lt_irrefl _
    omega
  · intro h
    rw [weighted_score_eq_log, weighted_score_eq_log, h]

lemma yes_percentage_le_iff (a b : ItemStats) :
    yes_percentage b ≤ yes_percentage a ↔ yesPermille b ≤ yesPermille a := by
  rw [yes_percentage_eq_permille, yes_percentage_eq_permille,
    div_le_div_iff_of_pos_right (by norm_num : (0:ℚ) < 10), Nat.cast_le]

lemma yes_percentage_eq_iff (a b : ItemStats) :
    yes_percentage a = yes_percentage b ↔ yesPermille a = yesPermille b := by
  rw [yes_percentage_eq_permille, yes_percentage_eq_permille]
  constructor
  · intro h
    have h10 := congrArg (fun q : ℚ => q * 10) h
    simp only [div_mul_cancel₀ _ (by norm_num : (10:ℚ) ≠ 0)] at h10
    exact_mod_cast h10
  · intro h
    rw [h]

/-- Two aggregates have the same integer sort key exactly when they agree
on both real sort columns. -/
lemma statKey_eq_iff (a b : ItemStats) :
    statKey a = statKey b ↔
      (weighted_score a = weighted_score b ∧
        yes_percentage a = yes_percentage b) := by
  have h2a : (statKey a).2 = yesPermille a := rfl
  have h2b : (statKey b).2 = yesPermille b := rfl
  rw [Prod.ext_iff, h2a, h2b, ← weighted_score_eq_iff, ← yes_percentage_eq_iff]

/-- The decidable comparator agrees with the descending lexicographic
order on the real `(weighted_score, yes_percentage)` columns. -/
lemma statLE_iff_wsLexGe (a b : ItemStats) : statLE a b = true ↔ wsLexGe a b := by
  rw [statLE, decide_eq_true_eq, wsLexGe]
  rw [weighted_score_lt_iff, weighted_score_eq_iff, yes_percentage_le_iff]
  rfl

/-- Stability of `mergeSort`, phrased through filters: the subsequence of
elements selected by a predicate on which the comparator is indifferent
comes out of the sort unchanged. -/
lemma filter_mergeSort_stable {α : Type} (le : α → α → Bool)
    (htrans : ∀ a b c : α, le a b → le b c → le a c)
    (htotal : ∀ a b : α, le a b || le b a)
    (l : List α) (p : α → Bool) (hp : ∀ a b : α, p a → p b → le a b) :
    (l.mergeSort le).filter p = l.filter p := by
  have h1 : List.Sublist (l.filter p) l := List.filter_sublist l
  have hpair : (l.filter p).Pairwise fun a b => le a b := by
    apply List.pairwise_of_forall_mem_list
    intro a ha b hb
    exact hp a b (List.of_mem_filter ha) (List.of_mem_filter hb)
  have hsub : List.Sublist (l.filter p) (l.mergeSort le) :=
    List.sublist_mergeSort htrans htotal hpair h1
  have hsub2 : List.Sublist ((l.filter p).filter p) ((l.mergeSort le).filter p) :=
    hsub.filter p
  have hidem : (l.filter p).filter p = l.filter p := by
    rw [List.filter_filter]
    exact List.filter_congr fun a _ => by cases h : p a <;> simp [h]
  rw [hidem] at hsub2
  have hlen : (l.filter p).length = ((l.mergeSort le).filter p).length := by
    rw [← List.countP_eq_length_filter, ← List.countP_eq_length_filter]
    exact ((List.mergeSort_perm l le).countP_eq p).symm
  exact (hsub2.eq_of_length hlen).symm

/-- C3: the report produced by `get_aggregate_stats` is sorted descending
by `weighted_score` with ties broken by `yes_percentage` descending, and
the sort is stable: the aggregates sharing one value of the sort key keep
the order the `groupby` gave them.  (Determinism is inherent: the report
is a function of the store contents.) -/
theorem rank_report_sorted_stable (rows : List VoteRow) (l : List ItemStats)
    (h : get_aggregate_stats rows = some l) :
    l.Pairwise wsLexGe ∧
    (∀ a b : ItemStats, statKey a = statKey b ↔
      (weighted_score a = weighted_score b ∧
        yes_percentage a = yes_percentage b)) ∧
    ∀ k : Nat × Nat,
      (l.filter fun g => statKey g == k)
        = (groupStats rows).filter fun g => statKey g == k := by
  rw [get_aggregate_stats] at h
  split at h
  · exact absurd h (by simp)
  · have hl : l = (groupStats rows).mergeSort statLE := by
      exact (Option.some.injEq _ _ ▸ h).symm
    subst hl
    refine ⟨?_, fun a b => statKey_eq_iff a b, ?_⟩
    · refine (List.sorted_mergeSort ?_ ?_ (groupStats rows)).imp
        fun hab => (statLE_iff_wsLexGe _ _).mp hab
      · exact statLE_trans
      · exact statLE_total
    · intro k
      refine filter_mergeSort_stable statLE statLE_trans statLE_total _ _ ?_
      intro a b ha hb
      have ha2 : statKey a = k := by simpa using ha
      have hb2 : statKey b = k := by simpa using hb
      have hk : statKey a = statKey b := by rw [ha2, hb2]
      simp only [statLE, decide_eq_true_eq]
      rw [hk]
      omega

/-- The demonstration store for the ranking claims: two voters, two
images; `a1` collects two `yes` votes, `b2` one `no` vote. -/
def demoRows : List VoteRow :=
  [⟨"s1", "ann", "a1", "yes", 1⟩, ⟨"s2", "bob", "a1", "yes", 2⟩,
   ⟨"s1", "ann", "b2", "no", 3⟩]

/-- The aggregate rows of `demoRows`, in the order the report returns
them. -/
def demoStats : List ItemStats :=
  [⟨"a1", 2, 2, 0, 0⟩, ⟨"b2", 1, 0, 1, 0⟩]

set_option maxRecDepth 8000 in
/-- Evaluation of the aggregation pipeline on the demonstration store. -/
lemma demo_aggregate_eval : get_aggregate_stats demoRows = some demoStats := by
  have h1 : (demoRows.map fun r => r.image_id).dedup = ["a1", "b2"] := by decide
  have h2 : distinctIds demoRows = ["a1", "b2"] := by
    rw [distinctIds, h1]
    exact List.mergeSort_of_sorted (by decide)
  have h3 : groupStats demoRows = demoStats := by
    rw [groupStats, h2]
    decide
  rw [get_aggregate_stats, if_neg (by decide), h3,
    List.mergeSort_of_sorted (by decide)]

/-- Concrete run of `rank_report_sorted_stable` on the demonstration
store. -/
theorem rank_report_sorted_stable_witness :
    demoStats.Pairwise wsLexGe ∧
    (demoStats.filter fun g => statKey g == statKey ⟨"a1", 2, 2, 0, 0⟩)
      = (groupStats demoRows).filter fun g => statKey g == statKey ⟨"a1", 2, 2, 0, 0⟩ := by
  have h := rank_report_sorted_stable demoRows demoStats demo_aggregate_eval
  exact ⟨h.1, h.2.2 (statKey ⟨"a1", 2, 2, 0, 0⟩)⟩

/-- Membership in the grouped frame: exactly the aggregates of the image
ids that occur in the store. -/
lemma mem_groupStats (rows : List VoteRow) (g : ItemStats) :
    g ∈ groupStats rows ↔
      ∃ k, (k ∈ rows.map fun r => r.image_id) ∧ g = mkStats rows k := by
  rw [groupStats]
  simp only [List.mem_map, distinctIds, List.mem_mergeSort, List.mem_dedup]
  constructor
  · rintro ⟨k, hk, rfl⟩
    exact ⟨k, hk, rfl⟩
  · rintro ⟨k, hk, rfl⟩
    exact ⟨k, hk, rfl⟩

/-- Every group that exists was formed from at least one present vote. -/
lemma total_votes_pos (rows : List VoteRow) (g : ItemStats)
    (hg : g ∈ groupStats rows) : 0 < g.total_votes := by
  rcases (mem_groupStats rows g).mp hg with ⟨k, hk, rfl⟩
  rcases List.mem_map.mp hk with ⟨r, hr, hrk⟩
  have hmem : r ∈ rows.filter fun r2 => r2.image_id == k :=
    List.mem_filter.mpr ⟨hr, by simp [hrk]⟩
  have hlen := List.length_pos.mpr (List.ne_nil_of_mem hmem)
  simpa [mkStats] using hlen

/-- The demonstration store for the score formula: ten voters on one
image, eight of them voting `yes`. -/
def demoTen : List VoteRow :=
  [⟨"s01", "v", "img1", "yes", 1⟩, ⟨"s02", "v", "img1", "yes", 2⟩,
   ⟨"s03", "v", "img1", "yes", 3⟩, ⟨"s04", "v", "img1", "yes", 4⟩,
   ⟨"s05", "v", "img1", "yes", 5⟩, ⟨"s06", "v", "img1", "yes", 6⟩,
   ⟨"s07", "v", "img1", "yes", 7⟩, ⟨"s08", "v", "img1", "yes", 8⟩,
   ⟨"s09", "v", "img1", "no", 9⟩, ⟨"s10", "v", "img1", "no", 10⟩]

/-- Evaluation of the aggregation pipeline on the ten-vote store. -/
lemma demoTen_eval :
    get_aggregate_stats demoTen = some [⟨"img1", 10, 8, 2, 0⟩] := by
  have h1 : (demoTen.map fun r => r.image_id).dedup = ["img1"] := by decide
  have h2 : distinctIds demoTen = ["img1"] := by
    rw [distinctIds, h1]
    exact List.mergeSort_of_sorted (by decide)
  have h3 : groupStats demoTen = [⟨"img1", 10, 8, 2, 0⟩] := by
    rw [groupStats, h2]
    decide
  rw [get_aggregate_stats, if_neg (by decide), h3, List.mergeSort_singleton]

/-- C4: in every report row, `total_votes` is positive (so the percentage
division is safe), `yes_percentage` is the one-decimal rounding of
`100 * yes_votes / total_votes`, and `weighted_score` is
`yes_percentage * ln (1 + total_votes)`; concretely, 8 `yes` out of 10
votes yields `yes_percentage = 80` and a weighted score within `0.01` of
`80 * ln 11`. -/
theorem score_formula :
    (∀ (rows : List VoteRow) (l : List ItemStats),
      get_aggregate_stats rows = some l → ∀ g ∈ l,
        0 < g.total_votes ∧
        yes_percentage g
          = (round (10 * (100 * (g.yes_votes : ℚ) / g.total_votes)) : ℚ) / 10 ∧
        weighted_score g = (yes_percentage g : ℝ) * Real.log (1 + g.total_votes)) ∧
    get_aggregate_stats demoTen = some [⟨"img1", 10, 8, 2, 0⟩] ∧
    yes_percentage ⟨"img1", 10, 8, 2, 0⟩ = 80 ∧
    |weighted_score ⟨"img1", 10, 8, 2, 0⟩ - 80 * Real.log 11| ≤ 1 / 100 := by
  have hp80 : yes_percentage ⟨"img1", 10, 8, 2, 0⟩ = 80 := by
    rw [yes_percentage_eq_permille]
    norm_num [yesPermille]
  refine ⟨?_, demoTen_eval, hp80, ?_⟩
  · intro rows l h g hg
    rw [get_aggregate_stats] at h
    split at h
    · exact absurd h (by simp)
    · have hl : l = (groupStats rows).mergeSort statLE := by
        exact (Option.some.injEq _ _ ▸ h).symm
      subst hl
      have hg2 : g ∈ groupStats rows := List.mem_mergeSort.mp hg
      refine ⟨total_votes_pos rows g hg2, ?_, rfl⟩
      rw [yes_percentage, roundTo1]
      have harr : (g.yes_votes : ℚ) / g.total_votes * 100
          = 100 * (g.yes_votes : ℚ) / g.total_votes := by ring
      rw [harr]
  · have hws : weighted_score ⟨"img1", 10, 8, 2, 0⟩ = 80 * Real.log 11 := by
      rw [weighted_score, hp80]
      norm_num
    rw [hws, sub_self, abs_zero]
    norm_num

/-- Concrete corollary of `score_formula`: the ten-vote demonstration
group is reported with positive total and an 80 percent approval. -/
theorem score_formula_witness :
    0 < (⟨"img1", 10, 8, 2, 0⟩ : ItemStats).total_votes ∧
    yes_percentage ⟨"img1", 10, 8, 2, 0⟩ = 80 := by
  have h := score_formula
  have hg := h.1 demoTen [⟨"img1", 10, 8, 2, 0⟩] h.2.1 ⟨"img1", 10, 8, 2, 0⟩ (by simp)
  exact ⟨hg.1, h.2.2.1⟩

/-- C10: the report is `None` exactly for the empty store; for any
non-empty store it is a list with exactly one aggregate per distinct
`image_id` present in the store. -/
theorem aggregate_report_shape (rows : List VoteRow) :
    (get_aggregate_stats rows = none ↔ rows = []) ∧
    ∀ l : List ItemStats, get_aggregate_stats rows = some l →
      (l.map fun g => g.image_id).Nodup ∧
      ∀ k : String,
        (k ∈ l.map fun g => g.image_id) ↔ k ∈ rows.map fun r => r.image_id := by
  constructor
  · rw [get_aggregate_stats]
    split
    · have he := List.length_eq_zero.mp (by assumption)
      subst he
      simp
    · constructor
      · intro hc
        exact absurd hc (by simp)
      · intro hc
        subst hc
        simp_all
  · intro l h
    rw [get_aggregate_stats] at h
    split at h
    · exact absurd h (by simp)
    · have hl : l = (groupStats rows).mergeSort statLE := by
        exact (Option.some.injEq _ _ ▸ h).symm
      subst hl
      have hperm : List.Perm
          (((groupStats rows).mergeSort statLE).map fun g => g.image_id)
          ((groupStats rows).map fun g => g.image_id) :=
        (List.mergeSort_perm _ _).map _
      have hids : ((groupStats rows).map fun g => g.image_id) = distinctIds rows := by
        rw [groupStats, List.map_map]
        have hcomp : ((fun g : ItemStats => g.image_id) ∘ mkStats rows)
            = fun k => k := funext fun k => rfl
        rw [hcomp]
        exact List.map_id' _
      have hnd : (distinctIds rows).Nodup :=
        (List.mergeSort_perm _ _).nodup_iff.mpr (List.nodup_dedup _)
      constructor
      · exact hperm.nodup_iff.mpr (hids ▸ hnd)
      · intro k
        rw [hperm.mem_iff, hids, distinctIds, List.mem_mergeSort, List.mem_dedup]

/-- Concrete run of `aggregate_report_shape`: the empty store reports
`none`; the demonstration store reports one row per distinct image. -/
theorem aggregate_report_shape_witness :
    get_aggregate_stats ([] : List VoteRow) = none ∧
    (demoStats.map fun g => g.image_id).Nodup ∧
    (("a1" ∈ demoStats.map fun g => g.image_id)
      ↔ "a1" ∈ demoRows.map fun r => r.image_id) := by
  have h := (aggregate_report_shape demoRows).2 demoStats demo_aggregate_eval
  exact ⟨(aggregate_report_shape []).1.mpr rfl, h.1, h.2 "a1"⟩

end BrandSwipe
